import Mathlib

/-!
Verification of `Meta_Probability.py`: a finite discrete random variable
(`RandomGen` / `RV`) with descriptor-based field validation, an inverse-CDF
sampler (`next_num`), two sampling drivers (`generator_` batch,
`generator` lazy via `generator_next`), and histogram aggregation.

Python values that may flow through the validated fields are embedded as
`PyVal`; Python exceptions as `PyErr` (keeping the distinction between
`TypeError` and `ValueError`, which the source uses for its three error
situations).  Python floats are embedded as the exact rational value of the
IEEE binary64 number the literal denotes; arithmetic on them is taken exact
(all numeric literals used in the development are either dyadic rationals
that binary64 represents exactly, or are written as their exact binary64
rational value).
-/

namespace MetaProbability

/-- A Python value that can appear inside the `elements` / `probabilities`
lists: integers, booleans (which satisfy `isinstance(·, int)` in Python),
floats (as the exact rational the binary64 number denotes), and strings
(a stand-in for non-numeric entries). -/
inductive PyVal where
  | int (n : Int)
  | bool (b : Bool)
  | float (q : ℚ)
  | str (s : String)
deriving Repr, DecidableEq

/-- A Python exception, keeping the class distinction the source relies on:
`TypeError` vs `ValueError` (with the message), plus `NameError` (the
`item` variable being unbound when `next_num` loops over an empty list)
and `KeyError` (dictionary lookup failure). -/
inductive PyErr where
  | typeError (msg : String)
  | valueError (msg : String)
  | nameError
  | keyError (k : String)
deriving Repr, DecidableEq

instance {ε α : Type} [DecidableEq ε] [DecidableEq α] : DecidableEq (Except ε α) := fun x y =>
  match x, y with
  | .error a, .error b =>
    if h : a = b then .isTrue (congrArg Except.error h)
    else .isFalse fun hc => h (Except.error.inj hc)
  | .ok a, .ok b =>
    if h : a = b then .isTrue (congrArg Except.ok h)
    else .isFalse fun hc => h (Except.ok.inj hc)
  | .error _, .ok _ => .isFalse fun hc => Except.noConfusion hc
  | .ok _, .error _ => .isFalse fun hc => Except.noConfusion hc

/-- Python's `isinstance(v, int)`: true for `int` and for `bool`
(`bool` is a subclass of `int` in Python), false for floats and strings. -/
def isInstInt : PyVal → Bool
  | .int _ => true
  | .bool _ => true
  | _ => false

/-- The numeric value of a `PyVal`, when it has one (`True` counts as 1 and
`False` as 0, as in Python arithmetic); `none` for non-numeric values. -/
def toNum : PyVal → Option ℚ
  | .int n => some (n : ℚ)
  | .bool b => some (if b then 1 else 0)
  | .float q => some q
  | .str _ => none

/-- The numeric value of a `PyVal`, defaulting to 0 (used only where
numericity has already been established). -/
def toNumD (v : PyVal) : ℚ := (toNum v).getD 0

/-- Python's `str(·)` for the values a validated `RV` can hold: decimal for
integers, `"True"` / `"False"` for booleans.  (Floats and strings cannot
occur in a validated `elements` list; the clauses for them only make the
function total.) -/
def pyStr : PyVal → String
  | .int n => toString n
  | .bool b => if b then "True" else "False"
  | .float q => toString q.num ++ "/" ++ toString q.den
  | .str s => s

/-- Python's `sum(value)` as computed in `_Probabilities.__set__`: a left
fold starting from `0`, raising `TypeError` at the first non-numeric
entry. -/
def pySum (acc : ℚ) : List PyVal → Except PyErr ℚ
  | [] => .ok acc
  | v :: rest =>
    match toNum v with
    | some q => pySum (acc + q) rest
    | none => .error (.typeError "unsupported operand type(s) for +")

/-- The error `_Integers.__set__` raises for a list with a non-integer. -/
def intListErr : PyErr := .typeError "The List passed must consist of all Integer Values."

/-- The error `_Probabilities.__set__` raises when the sum is outside
epsilon of 1.0. -/
def epsErr : PyErr := .valueError "Must be within Epsilon of 1.0."

/-- The error `RandomGen.list_tuple` raises on a length mismatch. -/
def shapeErr : PyErr := .valueError "Expecting to map each element to a probability."

/-- `List_Integers_('elements').__set__`: after the `List` type check
(carried by the Lean type here), `_Integers.__set__` requires every entry
to satisfy `isinstance(·, int)`; on success the value is stored unchanged. -/
def setElements (value : List PyVal) : Except PyErr (List PyVal) :=
  if value.all isInstInt then .ok value else .error intListErr

/-- `List_Probabilities('probabilities').__set__`: computes `sum(value)`
(re-raising the `TypeError` after logging if the sum fails), then accepts
iff `abs(_sum - 1.0) < 0.0001`, else raises `ValueError`; on success the
value is stored unchanged. -/
def setProbabilities (value : List PyVal) : Except PyErr (List PyVal) :=
  match pySum 0 value with
  | .error e => .error e
  | .ok s => if |s - 1| < 1 / 10000 then .ok value else .error epsErr

/-- The state of a `RandomGen` / `RV` instance: the two validated lists and
the lengths recorded by `__init__` (note: the recorded lengths are NOT
updated when a field is reassigned later). -/
structure RV where
  elements : List PyVal
  probabilities : List PyVal
  l_elem : Nat
  l_prob : Nat
deriving Repr, DecidableEq

/-- `RV.__init__` (inherited from `RandomGen.__init__`, with the two
descriptor `__set__` validations intercepting the field assignments):
validates `elements`, then `probabilities`, then records both lengths. -/
def RV.init (elements probabilities : List PyVal) : Except PyErr RV :=
  match setElements elements with
  | .error e => .error e
  | .ok es =>
    match setProbabilities probabilities with
    | .error e => .error e
    | .ok ps =>
      .ok { elements := es, probabilities := ps
            l_elem := elements.length, l_prob := probabilities.length }

/-- Reassignment `inst.elements = value` on an existing instance: runs the
descriptor validation and, on success, replaces the field — leaving the
recorded length `l_elem` stale. -/
def RV.assignElements (rv : RV) (value : List PyVal) : Except PyErr RV :=
  match setElements value with
  | .error e => .error e
  | .ok es => .ok { rv with elements := es }

/-- Reassignment `inst.probabilities = value` on an existing instance. -/
def RV.assignProbabilities (rv : RV) (value : List PyVal) : Except PyErr RV :=
  match setProbabilities value with
  | .error e => .error e
  | .ok ps => .ok { rv with probabilities := ps }

/-- `RandomGen.list_tuple`: `list(zip(elements, probabilities))` when the
RECORDED lengths `l_elem` and `l_prob` agree, else `ValueError`.  (Python's
`zip` silently truncates to the shorter list.) -/
def RV.list_tuple (rv : RV) : Except PyErr (List (PyVal × PyVal)) :=
  if rv.l_elem = rv.l_prob then .ok (rv.elements.zip rv.probabilities)
  else .error shapeErr

/-- The `for item, prob in list_` loop of `next_num`, with the running
accumulator `cdf`: adds each probability in turn (`TypeError` if an entry
is non-numeric, as `cdf += prob` would raise), returns the first item whose
running sum reaches `r`, and after an exhausted loop returns the last item
(the loop variable still holds it); on an empty list the loop variable was
never bound, signalled by `none`. -/
def selectLoop (r : ℚ) (cdf : ℚ) : List (PyVal × PyVal) → Except PyErr (Option PyVal)
  | [] => .ok none
  | (item, prob) :: rest =>
    match toNum prob with
    | none => .error (.typeError "unsupported operand type(s) for +")
    | some q =>
      if cdf + q ≥ r then .ok (some item)
      else
        match rest with
        | [] => .ok (some item)
        | _ :: _ => selectLoop r (cdf + q) rest

/-- `RandomGen.next_num`, with the uniform draw `r = uniform(0, 1)` made an
explicit argument: builds `list_tuple`, scans it with a running `cdf`, and
returns the selected item (an empty pair list would leave `item` unbound —
a `NameError`). -/
def RV.next_num (rv : RV) (r : ℚ) : Except PyErr PyVal :=
  match rv.list_tuple with
  | .error e => .error e
  | .ok pairs =>
    match selectLoop r 0 pairs with
    | .error e => .error e
    | .ok none => .error .nameError
    | .ok (some v) => .ok v

/-- The draws performed by `generator_next(n)` starting at position `i` of
the entropy stream `rs` (the `k`-th call of `next_num` consumes `rs k`). -/
def drawSeqAux (rv : RV) (rs : Nat → ℚ) (i : Nat) : Nat → Except PyErr (List PyVal)
  | 0 => .ok []
  | n + 1 =>
    match rv.next_num (rs i) with
    | .error e => .error e
    | .ok v =>
      match drawSeqAux rv rs (i + 1) n with
      | .error e => .error e
      | .ok rest => .ok (v :: rest)

/-- `RandomGen.generator_next(n)`: the lazy sequence of `n` draws, each a
call of `next_num`, consuming the entropy stream in order. -/
def RV.generator_next (rv : RV) (rs : Nat → ℚ) (n : Nat) : Except PyErr (List PyVal) :=
  drawSeqAux rv rs 0 n

/-- The keys of a Python dictionary modelled as an association list. -/
def keys (d : List (String × Nat)) : List String := d.map Prod.fst

/-- Python dictionary assignment `d[k] = v`: overwrites the entry if the
key is present, else appends it. -/
def dictAssign (d : List (String × Nat)) (k : String) (v : Nat) : List (String × Nat) :=
  if (keys d).contains k then
    d.map fun p => if p.1 = k then (p.1, v) else p
  else d ++ [(k, v)]

/-- Python dictionary lookup `d[k]`, `none` when the key is missing. -/
def dictLookup (d : List (String × Nat)) (k : String) : Option Nat :=
  (d.find? fun p => p.1 = k).map Prod.snd

/-- `dict(zip(keys, [0 for _ in keys]))`: one entry per distinct key,
every counter 0. -/
def dictOfZeros (ks : List String) : List (String × Nat) :=
  ks.foldl (fun d k => dictAssign d k 0) []

/-- `d[k] += 1`: `KeyError` when the key is absent. -/
def dictIncr (d : List (String × Nat)) (k : String) : Except PyErr (List (String × Nat)) :=
  match dictLookup d k with
  | some v => .ok (dictAssign d k (v + 1))
  | none => .error (.keyError k)

/-- The sum of all counters of a histogram. -/
def sumVals (d : List (String × Nat)) : Nat := (d.map Prod.snd).sum

/-- The `for i in range(n)` loop of `generator_`: at each step draw
`output = data.next_num()` (consuming `rs i`) and run
`dict_[str(output)] += 1`. -/
def goBatch (data : RV) (rs : Nat → ℚ) (d : List (String × Nat)) (i : Nat) :
    Nat → Except PyErr (List (String × Nat))
  | 0 => .ok d
  | n + 1 =>
    match data.next_num (rs i) with
    | .error e => .error e
    | .ok output =>
      match dictIncr d (pyStr output) with
      | .error e => .error e
      | .ok d' => goBatch data rs d' (i + 1) n

/-- `generator_(n, data)` (batch mode): seed the histogram with a zero
counter per stringified element, then draw and tally `n` times. -/
def generator_ (n : Nat) (data : RV) (rs : Nat → ℚ) : Except PyErr (List (String × Nat)) :=
  goBatch data rs (dictOfZeros (data.elements.map pyStr)) 0 n

/-- The `for elem in nums` tally loop of `generator`. -/
def foldIncr (d : List (String × Nat)) : List PyVal → Except PyErr (List (String × Nat))
  | [] => .ok d
  | v :: rest =>
    match dictIncr d (pyStr v) with
    | .error e => .error e
    | .ok d' => foldIncr d' rest

/-- `generator(n, data)` (lazy mode; the `debug` decorator only prints):
seed the histogram with a zero counter per stringified element, obtain
`nums = data.generator_next(n)` and tally each produced element. -/
def generator (n : Nat) (data : RV) (rs : Nat → ℚ) : Except PyErr (List (String × Nat)) :=
  match data.generator_next rs n with
  | .error e => .error e
  | .ok nums => foldIncr (dictOfZeros (data.elements.map pyStr)) nums

/-- Running cumulative sums of a list of probabilities, starting from
`acc` (spec vocabulary: the CDF values in supplied order). -/
def runningSums (acc : ℚ) : List ℚ → List ℚ
  | [] => []
  | q :: rest => (acc + q) :: runningSums (acc + q) rest

/-- Spec-side selection, following the spec's words for the sampler: pair
each outcome with its running cumulative probability, return the first
outcome whose cumulative sum is `≥ r`, and if none satisfies the condition
return the last outcome in the sequence. -/
def specNext (r : ℚ) (items : List PyVal) (qs : List ℚ) : Option PyVal :=
  match (items.zip (runningSums 0 qs)).find? (fun p => decide (p.2 ≥ r)) with
  | some p => some p.1
  | none => items.getLast?

/-! ### Helper lemmas about the validators -/

theorem setElements_ok {v w : List PyVal} (h : setElements v = .ok w) :
    w = v ∧ v.all isInstInt = true := by
  unfold setElements at h
  by_cases hall : v.all isInstInt = true
  · simp [hall] at h
    exact ⟨h.symm, hall⟩
  · simp [hall] at h

theorem setElements_ok_self {v : List PyVal} (h : v.all isInstInt = true) :
    setElements v = .ok v := by
  simp [setElements, h]

theorem pySum_ok_of_numeric {l : List PyVal} (h : ∀ v ∈ l, (toNum v).isSome) :
    ∀ acc : ℚ, pySum acc l = .ok (acc + (l.map toNumD).sum) := by
  induction l with
  | nil => intro acc; simp [pySum]
  | cons v rest ih =>
    intro acc
    have hv : (toNum v).isSome := h v (List.mem_cons_self v rest)
    obtain ⟨q, hq⟩ := Option.isSome_iff_exists.mp hv
    have hrest : ∀ u ∈ rest, (toNum u).isSome := fun u hu => h u (List.mem_cons_of_mem v hu)
    simp only [pySum, hq]
    rw [ih hrest (acc + q)]
    simp [toNumD, hq]
    ring

theorem pySum_numeric_of_ok {l : List PyVal} {acc s : ℚ} (h : pySum acc l = .ok s) :
    ∀ v ∈ l, (toNum v).isSome := by
  induction l generalizing acc with
  | nil => simp
  | cons v rest ih =>
    intro u hu
    simp only [pySum] at h
    cases hq : toNum v with
    | none => rw [hq] at h; exact absurd h (by simp)
    | some q =>
      rw [hq] at h
      rcases List.mem_cons.mp hu with rfl | hmem
      · simp [hq]
      · exact ih h u hmem

theorem pySum_error_of_nonnumeric {l : List PyVal} {v : PyVal}
    (hv : v ∈ l) (hnn : toNum v = none) :
    ∀ acc : ℚ, pySum acc l = .error (.typeError "unsupported operand type(s) for +") := by
  induction l with
  | nil => cases hv
  | cons u rest ih =>
    intro acc
    rcases List.mem_cons.mp hv with rfl | hmem
    · simp [pySum, hnn]
    · simp only [pySum]
      cases hq : toNum u with
      | none => simp
      | some q => exact ih hmem (acc + q)

theorem setProbabilities_ok {v w : List PyVal} (h : setProbabilities v = .ok w) :
    w = v ∧ (∀ u ∈ v, (toNum u).isSome) ∧ |(v.map toNumD).sum - 1| < 1 / 10000 := by
  unfold setProbabilities at h
  cases hs : pySum 0 v with
  | error e => rw [hs] at h; exact absurd h (by simp)
  | ok s =>
    rw [hs] at h
    have hnum := pySum_numeric_of_ok hs
    have hsum : s = (v.map toNumD).sum := by
      have := pySum_ok_of_numeric hnum 0
      rw [hs] at this
      simpa using Except.ok.inj this
    dsimp only at h
    split at h
    · exact ⟨(Except.ok.inj h).symm, hnum, hsum ▸ (by assumption)⟩
    · exact absurd h (by simp)

theorem setProbabilities_ok_self {v : List PyVal} (hnum : ∀ u ∈ v, (toNum u).isSome)
    (hsum : |(v.map toNumD).sum - 1| < 1 / 10000) :
    setProbabilities v = .ok v := by
  unfold setProbabilities
  rw [pySum_ok_of_numeric hnum 0]
  dsimp only
  rw [zero_add, if_pos hsum]

theorem RV.init_ok {es ps : List PyVal} {rv : RV} (h : RV.init es ps = .ok rv) :
    rv = { elements := es, probabilities := ps, l_elem := es.length, l_prob := ps.length } ∧
      es.all isInstInt = true ∧ (∀ u ∈ ps, (toNum u).isSome) ∧
      |(ps.map toNumD).sum - 1| < 1 / 10000 := by
  unfold RV.init at h
  cases he : setElements es with
  | error e => rw [he] at h; exact absurd h (by simp)
  | ok es' =>
    rw [he] at h
    dsimp only at h
    obtain ⟨hes, hint⟩ := setElements_ok he
    subst hes
    cases hp : setProbabilities ps with
    | error e => rw [hp] at h; exact absurd h (by simp)
    | ok ps' =>
      rw [hp] at h
      dsimp only at h
      obtain ⟨hps, hnum, hsum⟩ := setProbabilities_ok hp
      subst hps
      exact ⟨(Except.ok.inj h).symm, hint, hnum, hsum⟩

theorem RV.init_ok_valid {es ps : List PyVal} {rv : RV} (h : RV.init es ps = .ok rv) :
    rv.elements = es ∧ rv.probabilities = ps ∧ rv.l_elem = es.length ∧ rv.l_prob = ps.length := by
  obtain ⟨rfl, -⟩ := RV.init_ok h
  exact ⟨rfl, rfl, rfl, rfl⟩

/-- A probabilities list accepted by the validator is nonempty: the empty
sum is 0, which is not within epsilon of 1. -/
theorem setProbabilities_ok_ne_nil {v w : List PyVal} (h : setProbabilities v = .ok w) :
    v ≠ [] := by
  rintro rfl
  obtain ⟨-, -, habs⟩ := setProbabilities_ok h
  simp at habs
  norm_num at habs

/-! ### Helper lemmas about the selection loop of `next_num` -/

/-- The selection loop agrees with the spec-side description: the first
item whose running cumulative sum (started from `cdf`) reaches `r`, and
the last item when none does. -/
theorem selectLoop_eq_spec (r : ℚ) :
    ∀ (pairs : List (PyVal × PyVal)) (cdf : ℚ),
      (∀ p ∈ pairs, (toNum p.2).isSome) →
      selectLoop r cdf pairs =
        .ok (match ((pairs.map Prod.fst).zip
                (runningSums cdf (pairs.map fun p => toNumD p.2))).find?
                (fun q => decide (q.2 ≥ r)) with
             | some q => some q.1
             | none => (pairs.map Prod.fst).getLast?) := by
  intro pairs
  induction pairs with
  | nil => intro cdf _; simp [selectLoop, runningSums]
  | cons hd rest ih =>
    intro cdf hnum
    obtain ⟨item, prob⟩ := hd
    have hq : (toNum prob).isSome := hnum (item, prob) (List.mem_cons_self _ _)
    obtain ⟨q, hq⟩ := Option.isSome_iff_exists.mp hq
    have hqd : toNumD prob = q := by simp [toNumD, hq]
    simp only [selectLoop, hq, List.map_cons, runningSums, hqd, List.zip_cons_cons,
      List.find?_cons]
    by_cases hge : cdf + q ≥ r
    · simp [hge]
    · have hdec : (decide ((item, cdf + q).2 ≥ r)) = false := by simp [hge]
      rw [if_neg hge]
      cases rest with
      | nil => simp [hge, runningSums]
      | cons x xs =>
        have hrest : ∀ p ∈ x :: xs, (toNum p.2).isSome := fun p hp =>
          hnum p (List.mem_cons_of_mem _ hp)
        rw [ih (cdf + q) hrest]
        simp only [hdec, Bool.false_eq_true, if_false, List.map_cons]
        rw [List.getLast?_cons_cons]

/-- A successful selection returns one of the supplied items. -/
theorem selectLoop_mem {r : ℚ} :
    ∀ {pairs : List (PyVal × PyVal)} {cdf : ℚ} {v : PyVal},
      selectLoop r cdf pairs = .ok (some v) → v ∈ pairs.map Prod.fst := by
  intro pairs
  induction pairs with
  | nil => intro cdf v h; simp [selectLoop] at h
  | cons hd rest ih =>
    intro cdf v h
    obtain ⟨item, prob⟩ := hd
    simp only [selectLoop] at h
    cases hq : toNum prob with
    | none => rw [hq] at h; exact absurd h (by simp)
    | some q =>
      rw [hq] at h
      dsimp only at h
      split at h
      · simp at h; simp [h]
      · cases rest with
        | nil => simp at h; simp [h]
        | cons x xs =>
          have := ih h
          simp only [List.map_cons]
          exact List.mem_cons_of_mem _ this

/-- A successful draw returns one of the instance's elements (whatever the
state of the instance). -/
theorem RV.next_num_mem {rv : RV} {r : ℚ} {v : PyVal}
    (h : rv.next_num r = .ok v) : v ∈ rv.elements := by
  unfold RV.next_num at h
  cases hlt : rv.list_tuple with
  | error e => rw [hlt] at h; exact absurd h (by simp)
  | ok pairs =>
    rw [hlt] at h
    dsimp only at h
    have hpairs : pairs = rv.elements.zip rv.probabilities := by
      unfold RV.list_tuple at hlt
      split at hlt
      · exact (Except.ok.inj hlt).symm
      · exact absurd hlt (by simp)
    cases hsel : selectLoop r 0 pairs with
    | error e => rw [hsel] at h; exact absurd h (by simp)
    | ok o =>
      rw [hsel] at h
      cases o with
      | none => exact absurd h (by simp)
      | some w =>
        have hv : w = v := by simpa using h
        subst hv
        have hmem := selectLoop_mem hsel
        obtain ⟨p, hp, hpv⟩ := List.mem_map.mp hmem
        have := List.of_mem_zip (hpairs ▸ hp)
        exact hpv ▸ this.1

/-- On a validated instance with matching lengths, a draw always succeeds
and agrees with the spec-side selection `specNext`. -/
theorem RV.next_num_valid {es ps : List PyVal} {rv : RV} (r : ℚ)
    (hinit : RV.init es ps = .ok rv) (hlen : es.length = ps.length) :
    ∃ v, rv.next_num r = .ok v ∧ specNext r es (ps.map toNumD) = some v := by
  obtain ⟨rfl, hint, hnum, hsum⟩ := RV.init_ok hinit
  have hne : ps ≠ [] := by
    rintro rfl
    simp at hsum
    norm_num at hsum
  have hesne : es ≠ [] := by
    rintro rfl
    exact hne (List.eq_nil_of_length_eq_zero hlen.symm)
  have hlt : RV.list_tuple ⟨es, ps, es.length, ps.length⟩ = .ok (es.zip ps) := by
    unfold RV.list_tuple
    simp [hlen]
  have hnum' : ∀ p ∈ es.zip ps, (toNum p.2).isSome := fun p hp =>
    hnum p.2 (List.of_mem_zip hp).2
  have hsel := selectLoop_eq_spec r (es.zip ps) 0 hnum'
  have hfst : (es.zip ps).map Prod.fst = es := List.map_fst_zip es ps (le_of_eq hlen)
  have hsnd : ((es.zip ps).map fun p => toNumD p.2) = ps.map toNumD := by
    have : ((es.zip ps).map fun p => toNumD p.2) = ((es.zip ps).map Prod.snd).map toNumD := by
      simp [List.map_map, Function.comp]
    rw [this, List.map_snd_zip es ps (le_of_eq hlen.symm)]
  rw [hfst, hsnd] at hsel
  unfold RV.next_num
  rw [hlt]
  dsimp only
  rw [hsel]
  unfold specNext
  cases hfind : (es.zip (runningSums 0 (ps.map toNumD))).find? (fun q => decide (q.2 ≥ r)) with
  | some p => exact ⟨p.1, by simp, by simp⟩
  | none =>
    have : es.getLast?.isSome := List.getLast?_isSome.mpr hesne
    obtain ⟨v, hv⟩ := Option.isSome_iff_exists.mp this
    exact ⟨v, by simp [hv], by simp [hv]⟩

/-! ### Claims -/

/-- C1: For every Distribution with equal-length outcomes and probabilities
and every uniform draw `r` in `[0,1)`, a single draw (`next_num`) returns the
first outcome, in supplied order, whose running cumulative probability sum
is `≥ r` after adding that outcome's probability, and the last outcome in
the sequence when no outcome satisfies the condition (the `specNext`
selection); in particular, for `outcomes = [5]` and
`probabilities = [1.0]`, every draw returns `5`. -/
theorem claim_c1_next_num_first_crossing (es ps : List PyVal) (rv : RV) (r : ℚ)
    (hinit : RV.init es ps = .ok rv) (hlen : es.length = ps.length) :
    (∃ v, rv.next_num r = .ok v ∧ specNext r es (ps.map toNumD) = some v) ∧
    (∀ rv5 : RV, RV.init [PyVal.int 5] [PyVal.float 1] = .ok rv5 → r < 1 →
      rv5.next_num r = .ok (PyVal.int 5)) := by
  refine ⟨RV.next_num_valid r hinit hlen, ?_⟩
  intro rv5 hinit5 hr
  obtain ⟨v, hv, hspec⟩ := RV.next_num_valid r hinit5 rfl
  have : specNext r [PyVal.int 5] ([PyVal.float 1].map toNumD) = some (PyVal.int 5) := by
    simp [specNext, runningSums, toNumD, toNum, ge_iff_le, le_of_lt hr]
  rw [this] at hspec
  rw [hv, Option.some.inj hspec]

/-- Witness for C1 at `outcomes = [5]`, `probabilities = [1.0]`, `r = 1/2`. -/
theorem claim_c1_witness :
    (RV.mk [PyVal.int 5] [PyVal.float 1] 1 1).next_num (1 / 2) = .ok (PyVal.int 5) := by
  have hinit : RV.init [PyVal.int 5] [PyVal.float 1]
      = .ok ⟨[PyVal.int 5], [PyVal.float 1], 1, 1⟩ := by
    norm_num [RV.init, setElements, setProbabilities, pySum, toNum, isInstInt, abs_lt]
  exact (claim_c1_next_num_first_crossing [PyVal.int 5] [PyVal.float 1]
    ⟨[PyVal.int 5], [PyVal.float 1], 1, 1⟩ (1 / 2) hinit rfl).2 _ hinit (by norm_num)

/-- The exact rational value of the IEEE binary64 double denoted by the
Python literal `1.0001` (the denominator is `2 ^ 52`). -/
def boundarySum : ℚ := 4504049987333233 / 4503599627370496

/-- The exact rational value of the IEEE binary64 double denoted by the
Python literal `1.00011` (the denominator is `2 ^ 52`). -/
def outsideSum : ℚ := 4504095023329507 / 4503599627370496

/-- C2: assignment of the probabilities field succeeds iff
`abs(sum(probabilities) - 1.0) < 1e-4` (strict); a sequence summing to the
value of the literal `1.0001` (at the boundary) is accepted, and one
summing to the value of the literal `1.00011` is rejected with
`ProbabilityError` (the `ValueError` `epsErr`). -/
theorem claim_c2_epsilon_validation (ps : List PyVal)
    (hnum : ∀ u ∈ ps, (toNum u).isSome) :
    (setProbabilities ps = .ok ps ↔ |(ps.map toNumD).sum - 1| < 1 / 10000) ∧
    setProbabilities [PyVal.float boundarySum] = .ok [PyVal.float boundarySum] ∧
    setProbabilities [PyVal.float outsideSum] = .error epsErr := by
  refine ⟨⟨fun h => (setProbabilities_ok h).2.2, fun h => setProbabilities_ok_self hnum h⟩,
    ?_, ?_⟩
  · simp [setProbabilities, pySum, toNum, boundarySum]
    rw [abs_of_nonneg (by norm_num)]
    norm_num
  · simp [setProbabilities, pySum, toNum, outsideSum]
    rw [abs_of_nonneg (by norm_num)]
    norm_num

/-- Witness for C2 at `probabilities = [0.5, 0.5]`. -/
theorem claim_c2_witness :
    (setProbabilities [PyVal.float (1 / 2), PyVal.float (1 / 2)]
        = .ok [PyVal.float (1 / 2), PyVal.float (1 / 2)] ↔
      |([PyVal.float (1 / 2), PyVal.float (1 / 2)].map toNumD).sum - 1| < 1 / 10000) ∧
    setProbabilities [PyVal.float boundarySum] = .ok [PyVal.float boundarySum] ∧
    setProbabilities [PyVal.float outsideSum] = .error epsErr :=
  claim_c2_epsilon_validation [PyVal.float (1 / 2), PyVal.float (1 / 2)] (by simp [toNum])

/-- C3 counterexample: a Distribution whose outcomes and probabilities
differ in length constructs SUCCESSFULLY (no `ShapeMismatch` at
construction time): the shape check is deferred to `list_tuple`. -/
theorem claim_c3_counterexample :
    RV.init [PyVal.int 1, PyVal.int 2, PyVal.int 3] [PyVal.float (1 / 2), PyVal.float (1 / 2)]
      = .ok ⟨[PyVal.int 1, PyVal.int 2, PyVal.int 3],
             [PyVal.float (1 / 2), PyVal.float (1 / 2)], 3, 2⟩ ∧
    ([PyVal.int 1, PyVal.int 2, PyVal.int 3] : List PyVal).length
      ≠ ([PyVal.float (1 / 2), PyVal.float (1 / 2)] : List PyVal).length := by
  constructor
  · norm_num [RV.init, setElements, setProbabilities, pySum, toNum, isInstInt, abs_lt]
  · simp

/-- C3 (amended): constructing with mismatched lengths succeeds whenever
both field validations pass; the `ShapeMismatch` error (`shapeErr`) is
raised only when outcomes are first paired with probabilities
(`list_tuple`, hence the first draw).  The claim's own example
`outcomes = [1,2]`, `probabilities = [0.5]` does fail at construction, but
with `ProbabilityError` (`epsErr`), because `0.5` is not within epsilon
of 1. -/
theorem claim_c3_shape_error_at_first_draw (es ps : List PyVal) (rv : RV)
    (hinit : RV.init es ps = .ok rv) (hne : es.length ≠ ps.length) :
    rv.list_tuple = .error shapeErr ∧ (∀ r, rv.next_num r = .error shapeErr) ∧
    RV.init [PyVal.int 1, PyVal.int 2] [PyVal.float (1 / 2)] = .error epsErr := by
  obtain ⟨rfl, -⟩ := RV.init_ok hinit
  have hlt : RV.list_tuple ⟨es, ps, es.length, ps.length⟩ = .error shapeErr := by
    unfold RV.list_tuple
    rw [if_neg hne]
  refine ⟨hlt, fun r => ?_, ?_⟩
  · unfold RV.next_num
    rw [hlt]
  · norm_num [RV.init, setElements, setProbabilities, pySum, toNum, isInstInt, abs_lt]

/-- Witness for C3 (amended) at `outcomes = [1,2,3]`,
`probabilities = [0.5, 0.5]`. -/
theorem claim_c3_witness :
    (RV.mk [PyVal.int 1, PyVal.int 2, PyVal.int 3] [PyVal.float (1 / 2), PyVal.float (1 / 2)]
      3 2).list_tuple = .error shapeErr := by
  have hinit : RV.init [PyVal.int 1, PyVal.int 2, PyVal.int 3]
      [PyVal.float (1 / 2), PyVal.float (1 / 2)]
      = .ok ⟨[PyVal.int 1, PyVal.int 2, PyVal.int 3],
             [PyVal.float (1 / 2), PyVal.float (1 / 2)], 3, 2⟩ := by
    norm_num [RV.init, setElements, setProbabilities, pySum, toNum, isInstInt, abs_lt]
  exact (claim_c3_shape_error_at_first_draw _ _ _ hinit (by simp)).1

/-- C6 counterexample: the shape guard compares the lengths RECORDED at
construction (`l_elem` / `l_prob`), which reassignment does not refresh.
After reassigning `elements` to a longer valid list, the current sequences
have different lengths, yet `list_tuple` succeeds and silently truncates
the longer sequence (Python `zip`). -/
theorem claim_c6_counterexample :
    RV.init [PyVal.int 0, PyVal.int 1] [PyVal.float (1 / 2), PyVal.float (1 / 2)]
      = .ok ⟨[PyVal.int 0, PyVal.int 1], [PyVal.float (1 / 2), PyVal.float (1 / 2)], 2, 2⟩ ∧
    (RV.mk [PyVal.int 0, PyVal.int 1] [PyVal.float (1 / 2), PyVal.float (1 / 2)]
        2 2).assignElements [PyVal.int 0, PyVal.int 1, PyVal.int 2]
      = .ok (RV.mk [PyVal.int 0, PyVal.int 1, PyVal.int 2]
          [PyVal.float (1 / 2), PyVal.float (1 / 2)] 2 2) ∧
    (RV.mk [PyVal.int 0, PyVal.int 1, PyVal.int 2]
        [PyVal.float (1 / 2), PyVal.float (1 / 2)] 2 2).elements.length
      ≠ (RV.mk [PyVal.int 0, PyVal.int 1, PyVal.int 2]
          [PyVal.float (1 / 2), PyVal.float (1 / 2)] 2 2).probabilities.length ∧
    (RV.mk [PyVal.int 0, PyVal.int 1, PyVal.int 2]
        [PyVal.float (1 / 2), PyVal.float (1 / 2)] 2 2).list_tuple
      = .ok [(PyVal.int 0, PyVal.float (1 / 2)), (PyVal.int 1, PyVal.float (1 / 2))] := by
  refine ⟨?_, ?_, by simp, ?_⟩
  · norm_num [RV.init, setElements, setProbabilities, pySum, toNum, isInstInt, abs_lt]
  · simp [RV.assignElements, setElements, isInstInt]
  · simp [RV.list_tuple]

/-- C6 (amended): the pairing guard protects exactly the RECORDED
construction-time lengths: whenever `l_elem ≠ l_prob`, `list_tuple` (hence
every draw) fails with `ShapeMismatch` (`shapeErr`).  For the CURRENT
sequences the guarantee does not hold: a field reassignment leaves the
recorded lengths stale, after which `list_tuple` can succeed and silently
truncate (see the counterexample). -/
theorem claim_c6_recorded_shape_guard (rv : RV) (h : rv.l_elem ≠ rv.l_prob) :
    rv.list_tuple = .error shapeErr ∧ ∀ r, rv.next_num r = .error shapeErr := by
  have hlt : rv.list_tuple = .error shapeErr := by
    unfold RV.list_tuple
    rw [if_neg h]
  refine ⟨hlt, fun r => ?_⟩
  unfold RV.next_num
  rw [hlt]

/-- Witness for C6 (amended) at an instance recorded with lengths 1 and 0. -/
theorem claim_c6_witness :
    (RV.mk [PyVal.int 1] [] 1 0).list_tuple = .error shapeErr ∧
    ∀ r, (RV.mk [PyVal.int 1] [] 1 0).next_num r = .error shapeErr :=
  claim_c6_recorded_shape_guard (RV.mk [PyVal.int 1] [] 1 0) (by simp)

/-- C7 counterexample: a non-numeric probabilities entry makes the
summation fail with `TypeError`, and the bare `raise` re-raises that SAME
`TypeError` — a different exception kind from the `ValueError` (`epsErr`,
the spec's `ProbabilityError`) raised for a sum outside epsilon; it is not
wrapped into the `ValueError` kind. -/
theorem claim_c7_counterexample :
    setProbabilities [PyVal.str "a"]
      = .error (PyErr.typeError "unsupported operand type(s) for +") ∧
    setProbabilities [PyVal.float (1 / 2)] = .error epsErr ∧
    PyErr.typeError "unsupported operand type(s) for +" ≠ epsErr := by
  refine ⟨by simp [setProbabilities, pySum, toNum], ?_, by simp [epsErr]⟩
  simp [setProbabilities, pySum, toNum]
  rw [abs_of_nonpos (by norm_num)]
  norm_num

/-- C7 (amended): assigning a probabilities sequence containing a
non-numeric entry fails: the arithmetic failure during summation is
caught, logged, and re-raised UNCHANGED as the original `TypeError` (the
`TypeMismatch` kind) — not swallowed, but also not converted to the
`ProbabilityError` kind (`epsErr`) used for sums outside epsilon. -/
theorem claim_c7_nonnumeric_reraised (ps : List PyVal) (v : PyVal)
    (hv : v ∈ ps) (hnn : toNum v = none) :
    setProbabilities ps = .error (PyErr.typeError "unsupported operand type(s) for +") ∧
    PyErr.typeError "unsupported operand type(s) for +" ≠ epsErr := by
  refine ⟨?_, by simp [epsErr]⟩
  unfold setProbabilities
  rw [pySum_error_of_nonnumeric hv hnn 0]

/-- Witness for C7 (amended) at `probabilities = ["a"]`. -/
theorem claim_c7_witness :
    setProbabilities [PyVal.str "a"]
      = .error (PyErr.typeError "unsupported operand type(s) for +") ∧
    PyErr.typeError "unsupported operand type(s) for +" ≠ epsErr :=
  claim_c7_nonnumeric_reraised [PyVal.str "a"] (PyVal.str "a") (by simp) rfl

/-- C8: assigning an outcomes sequence containing any non-integer element
fails with `TypeMismatch` (the `TypeError` `intListErr`), whether at
construction or at reassignment, and no value is stored (the `Except`
result carries no updated instance). -/
theorem claim_c8_integer_type_check (vs : List PyVal) (v : PyVal)
    (hv : v ∈ vs) (hni : isInstInt v = false) :
    setElements vs = .error intListErr ∧
    (∀ ps, RV.init vs ps = .error intListErr) ∧
    (∀ rv : RV, rv.assignElements vs = .error intListErr) := by
  have hall : vs.all isInstInt = false := by
    rw [List.all_eq_false]
    exact ⟨v, hv, by simp [hni]⟩
  have hse : setElements vs = .error intListErr := by
    unfold setElements
    simp [hall]
  refine ⟨hse, fun ps => ?_, fun rv => ?_⟩
  · unfold RV.init
    rw [hse]
  · unfold RV.assignElements
    rw [hse]

/-- Witness for C8 at `outcomes = [1, 2.5]`. -/
theorem claim_c8_witness :
    setElements [PyVal.int 1, PyVal.float (5 / 2)] = .error intListErr ∧
    (∀ ps, RV.init [PyVal.int 1, PyVal.float (5 / 2)] ps = .error intListErr) ∧
    (∀ rv : RV, rv.assignElements [PyVal.int 1, PyVal.float (5 / 2)] = .error intListErr) :=
  claim_c8_integer_type_check [PyVal.int 1, PyVal.float (5 / 2)] (PyVal.float (5 / 2))
    (by simp) rfl

/-- C9: validation is idempotent: re-assigning the `elements` and
`probabilities` fields of an already-validated instance with their current
(already-accepted) values succeeds and leaves the instance unchanged. -/
theorem claim_c9_validation_idempotent (es ps : List PyVal) (rv : RV)
    (hinit : RV.init es ps = .ok rv) :
    rv.assignElements rv.elements = .ok rv ∧
    rv.assignProbabilities rv.probabilities = .ok rv := by
  obtain ⟨rfl, hint, hnum, hsum⟩ := RV.init_ok hinit
  constructor
  · unfold RV.assignElements
    rw [setElements_ok_self hint]
  · unfold RV.assignProbabilities
    rw [setProbabilities_ok_self hnum hsum]

/-- Witness for C9 at `outcomes = [0]`, `probabilities = [1.0]`. -/
theorem claim_c9_witness :
    (RV.mk [PyVal.int 0] [PyVal.float 1] 1 1).assignElements
        (RV.mk [PyVal.int 0] [PyVal.float 1] 1 1).elements
      = .ok (RV.mk [PyVal.int 0] [PyVal.float 1] 1 1) ∧
    (RV.mk [PyVal.int 0] [PyVal.float 1] 1 1).assignProbabilities
        (RV.mk [PyVal.int 0] [PyVal.float 1] 1 1).probabilities
      = .ok (RV.mk [PyVal.int 0] [PyVal.float 1] 1 1) := by
  have hinit : RV.init [PyVal.int 0] [PyVal.float 1]
      = .ok ⟨[PyVal.int 0], [PyVal.float 1], 1, 1⟩ := by
    norm_num [RV.init, setElements, setProbabilities, pySum, toNum, isInstInt, abs_lt]
  exact claim_c9_validation_idempotent [PyVal.int 0] [PyVal.float 1] _ hinit

/-- C10: the integer-element check accepts booleans, because Python's
`isinstance(·, int)` holds for `bool`: `outcomes = [True, False]` with
`probabilities = [0.5, 0.5]` constructs successfully, and a draw can
return a boolean rather than a plain integer. -/
theorem claim_c10_bool_outcomes_accepted :
    RV.init [PyVal.bool true, PyVal.bool false] [PyVal.float (1 / 2), PyVal.float (1 / 2)]
      = .ok ⟨[PyVal.bool true, PyVal.bool false],
             [PyVal.float (1 / 2), PyVal.float (1 / 2)], 2, 2⟩ ∧
    (RV.mk [PyVal.bool true, PyVal.bool false] [PyVal.float (1 / 2), PyVal.float (1 / 2)]
        2 2).next_num (1 / 4) = .ok (PyVal.bool true) ∧
    isInstInt (PyVal.bool true) = true ∧ isInstInt (PyVal.bool false) = true := by
  refine ⟨?_, ?_, rfl, rfl⟩
  · norm_num [RV.init, setElements, setProbabilities, pySum, toNum, isInstInt, abs_lt]
  · norm_num [RV.next_num, RV.list_tuple, selectLoop, toNum]

/-! ### Helper lemmas about the histogram dictionary -/

theorem contains_keys_iff (d : List (String × Nat)) (k : String) :
    (keys d).contains k = true ↔ k ∈ keys d := by
  unfold List.contains
  exact List.elem_iff

theorem map_update_id {l : List (String × Nat)} {k : String} {w : Nat}
    (h : k ∉ keys l) :
    (l.map fun p => if p.1 = k then (p.1, w) else p) = l := by
  induction l with
  | nil => rfl
  | cons hd rest ih =>
    have hhd : hd.1 ≠ k := by
      intro he
      exact h (by simp [keys, he])
    have hrest : k ∉ keys rest := by
      intro hm
      exact h (by simp [keys] at hm ⊢; exact Or.inr hm)
    simp only [List.map_cons, if_neg hhd, ih hrest]

theorem keys_dictAssign_of_contains {d : List (String × Nat)} {k : String} (v : Nat)
    (h : (keys d).contains k = true) :
    keys (dictAssign d k v) = keys d := by
  unfold dictAssign
  rw [if_pos h]
  unfold keys
  rw [List.map_map]
  apply List.map_congr_left
  intro p _
  by_cases hp : p.1 = k <;> simp [hp]

theorem keys_dictAssign_of_not_contains {d : List (String × Nat)} {k : String} (v : Nat)
    (h : ¬(keys d).contains k = true) :
    keys (dictAssign d k v) = keys d ++ [k] := by
  unfold dictAssign
  rw [if_neg h]
  simp [keys]

theorem mem_keys_dictAssign (d : List (String × Nat)) (k : String) (v : Nat) (x : String) :
    x ∈ keys (dictAssign d k v) ↔ x ∈ keys d ∨ x = k := by
  by_cases h : (keys d).contains k = true
  · rw [keys_dictAssign_of_contains v h]
    have hk : k ∈ keys d := (contains_keys_iff d k).mp h
    constructor
    · exact Or.inl
    · rintro (hx | rfl)
      · exact hx
      · exact hk
  · rw [keys_dictAssign_of_not_contains v h]
    simp

theorem nodup_keys_dictAssign {d : List (String × Nat)} (k : String) (v : Nat)
    (h : (keys d).Nodup) : (keys (dictAssign d k v)).Nodup := by
  by_cases hc : (keys d).contains k = true
  · rw [keys_dictAssign_of_contains v hc]; exact h
  · rw [keys_dictAssign_of_not_contains v hc]
    have hk : k ∉ keys d := fun hm => hc ((contains_keys_iff d k).mpr hm)
    simp [List.nodup_append, h, hk]

theorem dictLookup_isSome_of_mem {d : List (String × Nat)} {k : String}
    (h : k ∈ keys d) : (dictLookup d k).isSome = true := by
  unfold dictLookup
  obtain ⟨p, hp, hpk⟩ := List.mem_map.mp h
  have hfs : (List.find? (fun p => decide (p.1 = k)) d).isSome = true :=
    List.find?_isSome.mpr ⟨p, hp, by simp [hpk]⟩
  obtain ⟨q, hq⟩ := Option.isSome_iff_exists.mp hfs
  rw [hq]
  rfl

theorem dictIncr_ok_of_mem {d : List (String × Nat)} {k : String}
    (h : k ∈ keys d) : ∃ d', dictIncr d k = .ok d' := by
  unfold dictIncr
  obtain ⟨v, hv⟩ := Option.isSome_iff_exists.mp (dictLookup_isSome_of_mem h)
  rw [hv]
  exact ⟨dictAssign d k (v + 1), rfl⟩

theorem dictLookup_mem_keys {d : List (String × Nat)} {k : String} {v : Nat}
    (h : dictLookup d k = some v) : k ∈ keys d := by
  unfold dictLookup at h
  cases hf : (d.find? fun p => p.1 = k) with
  | none => rw [hf] at h; exact absurd h (by simp)
  | some p =>
    have hmem := List.mem_of_find?_eq_some hf
    have hpk : p.1 = k := by simpa using List.find?_some hf
    exact hpk ▸ List.mem_map_of_mem Prod.fst hmem

theorem keys_dictIncr {d d' : List (String × Nat)} {k : String}
    (h : dictIncr d k = .ok d') : keys d' = keys d := by
  unfold dictIncr at h
  cases hl : dictLookup d k with
  | none => rw [hl] at h; exact absurd h (by simp)
  | some v =>
    rw [hl] at h
    have hd' : d' = dictAssign d k (v + 1) := (Except.ok.inj h).symm
    subst hd'
    exact keys_dictAssign_of_contains _
      ((contains_keys_iff d k).mpr (dictLookup_mem_keys hl))

theorem sumVals_dictIncr {d d' : List (String × Nat)} {k : String}
    (hnd : (keys d).Nodup) (h : dictIncr d k = .ok d') :
    sumVals d' = sumVals d + 1 := by
  unfold dictIncr at h
  cases hl : dictLookup d k with
  | none => rw [hl] at h; exact absurd h (by simp)
  | some v =>
    rw [hl] at h
    have hd' : d' = dictAssign d k (v + 1) := (Except.ok.inj h).symm
    subst hd'
    clear h
    induction d with
    | nil => simp [dictLookup] at hl
    | cons hd rest ih =>
      obtain ⟨k', v'⟩ := hd
      have hnd' : (keys rest).Nodup := (List.nodup_cons.mp hnd).2
      by_cases hk : k' = k
      · subst hk
        have hv : v' = v := by
          unfold dictLookup at hl
          simp [List.find?_cons] at hl
          exact hl
        subst hv
        have hknr : k' ∉ keys rest := (List.nodup_cons.mp hnd).1
        unfold dictAssign
        rw [if_pos (by simp [contains_keys_iff, keys])]
        simp only [List.map_cons, if_pos rfl]
        rw [map_update_id hknr]
        simp [sumVals]
        omega
      · have hl' : dictLookup rest k = some v := by
          unfold dictLookup at hl ⊢
          simpa [List.find?_cons, hk] using hl
        have hmem : k ∈ keys rest := dictLookup_mem_keys hl'
        have hrec := ih hnd' hl'
        unfold dictAssign at hrec ⊢
        rw [if_pos (by simp [contains_keys_iff, keys]; exact Or.inr (by
          simpa [keys] using hmem))]
        rw [if_pos (by simpa [contains_keys_iff] using hmem)] at hrec
        simp only [List.map_cons, if_neg hk]
        simp [sumVals] at hrec ⊢
        omega

theorem mem_keys_foldl_dictAssign (ks : List String) :
    ∀ (d : List (String × Nat)) (x : String),
      x ∈ keys (ks.foldl (fun d k => dictAssign d k 0) d) ↔ x ∈ keys d ∨ x ∈ ks := by
  induction ks with
  | nil => intro d x; simp
  | cons k rest ih =>
    intro d x
    rw [List.foldl_cons, ih]
    rw [mem_keys_dictAssign]
    constructor
    · rintro ((hx | rfl) | hx)
      · exact Or.inl hx
      · exact Or.inr (List.mem_cons_self _ _)
      · exact Or.inr (List.mem_cons_of_mem _ hx)
    · rintro (hx | hx)
      · exact Or.inl (Or.inl hx)
      · rcases List.mem_cons.mp hx with rfl | hx
        · exact Or.inl (Or.inr rfl)
        · exact Or.inr hx

/-- The dictionary `dict(zip(keys, zeros))` has exactly the supplied keys
(as a set: Python dictionaries keep one entry per distinct key). -/
theorem mem_keys_dictOfZeros (ks : List String) (x : String) :
    x ∈ keys (dictOfZeros ks) ↔ x ∈ ks := by
  unfold dictOfZeros
  rw [mem_keys_foldl_dictAssign]
  simp [keys]

theorem nodup_keys_foldl_dictAssign (ks : List String) :
    ∀ (d : List (String × Nat)), (keys d).Nodup →
      (keys (ks.foldl (fun d k => dictAssign d k 0) d)).Nodup := by
  induction ks with
  | nil => intro d h; simpa using h
  | cons k rest ih =>
    intro d h
    rw [List.foldl_cons]
    exact ih _ (nodup_keys_dictAssign k 0 h)

theorem nodup_keys_dictOfZeros (ks : List String) : (keys (dictOfZeros ks)).Nodup :=
  nodup_keys_foldl_dictAssign ks [] (by simp [keys])

theorem vals_dictAssign_zero {d : List (String × Nat)} (k : String)
    (h : ∀ p ∈ d, p.2 = 0) : ∀ p ∈ dictAssign d k 0, p.2 = 0 := by
  unfold dictAssign
  split
  · intro p hp
    obtain ⟨q, hq, hqp⟩ := List.mem_map.mp hp
    by_cases hqk : q.1 = k
    · rw [if_pos hqk] at hqp; rw [← hqp]
    · rw [if_neg hqk] at hqp; rw [← hqp]; exact h q hq
  · intro p hp
    rcases List.mem_append.mp hp with hp | hp
    · exact h p hp
    · simp at hp; rw [hp]

theorem vals_foldl_dictAssign_zero (ks : List String) :
    ∀ (d : List (String × Nat)), (∀ p ∈ d, p.2 = 0) →
      ∀ p ∈ ks.foldl (fun d k => dictAssign d k 0) d, p.2 = 0 := by
  induction ks with
  | nil => intro d h; simpa using h
  | cons k rest ih =>
    intro d h
    rw [List.foldl_cons]
    exact ih _ (vals_dictAssign_zero k h)

/-- Every counter of the freshly seeded histogram is 0. -/
theorem vals_dictOfZeros (ks : List String) : ∀ p ∈ dictOfZeros ks, p.2 = 0 :=
  vals_foldl_dictAssign_zero ks [] (by simp)

theorem sumVals_dictOfZeros (ks : List String) : sumVals (dictOfZeros ks) = 0 := by
  unfold sumVals
  apply List.sum_eq_zero
  intro x hx
  obtain ⟨p, hp, hpx⟩ := List.mem_map.mp hx
  rw [← hpx]
  exact vals_dictOfZeros ks p hp

/-! ### Batch mode and lazy mode agree -/

/-- The interleaved draw-and-tally loop of `generator_` computes exactly
the tally of the draw sequence that `generator_next` yields, as long as
every element's key is present in the histogram (which the seeding
guarantees, so a `KeyError` is unreachable). -/
theorem goBatch_eq_drawSeq (data : RV) (rs : Nat → ℚ) :
    ∀ (n i : Nat) (d : List (String × Nat)),
      (∀ v ∈ data.elements, pyStr v ∈ keys d) →
      goBatch data rs d i n =
        match drawSeqAux data rs i n with
        | .error e => .error e
        | .ok l => foldIncr d l := by
  intro n
  induction n with
  | zero => intro i d _; simp [goBatch, drawSeqAux, foldIncr]
  | succ n ih =>
    intro i d hinv
    unfold goBatch drawSeqAux
    cases hdv : data.next_num (rs i) with
    | error e => rfl
    | ok v =>
      dsimp only
      have hvmem : pyStr v ∈ keys d := hinv v (RV.next_num_mem hdv)
      obtain ⟨d', hd'⟩ := dictIncr_ok_of_mem hvmem
      rw [hd']
      dsimp only
      have hinv' : ∀ u ∈ data.elements, pyStr u ∈ keys d' := by
        intro u hu
        rw [keys_dictIncr hd']
        exact hinv u hu
      rw [ih (i + 1) d' hinv']
      cases hrest : drawSeqAux data rs (i + 1) n with
      | error e => rfl
      | ok l =>
        dsimp only
        unfold foldIncr
        rw [hd']
        dsimp only
        cases l <;> simp [foldIncr]

/-- `generator_` (batch) and `generator` (lazy) agree on every input. -/
theorem generator_modes_eq (n : Nat) (data : RV) (rs : Nat → ℚ) :
    generator_ n data rs = generator n data rs := by
  unfold generator_ generator RV.generator_next
  rw [goBatch_eq_drawSeq data rs n 0 (dictOfZeros (data.elements.map pyStr))
    (fun v hv => (mem_keys_dictOfZeros _ _).mpr (List.mem_map_of_mem pyStr hv))]

/-- When every draw succeeds with an element of the distribution, the
batch loop succeeds, preserves the histogram's keys, and adds exactly one
count per draw. -/
theorem goBatch_valid (data : RV) (rs : Nat → ℚ)
    (hdraw : ∀ r : ℚ, ∃ v, data.next_num r = .ok v ∧ v ∈ data.elements) :
    ∀ (n i : Nat) (d : List (String × Nat)),
      (keys d).Nodup → (∀ v ∈ data.elements, pyStr v ∈ keys d) →
      ∃ d', goBatch data rs d i n = .ok d' ∧ keys d' = keys d ∧
        sumVals d' = sumVals d + n := by
  intro n
  induction n with
  | zero => intro i d _ _; exact ⟨d, by simp [goBatch], rfl, by simp⟩
  | succ n ih =>
    intro i d hnd hinv
    obtain ⟨v, hv, hvm⟩ := hdraw (rs i)
    obtain ⟨d1, hd1⟩ := dictIncr_ok_of_mem (hinv v hvm)
    have hkeys1 := keys_dictIncr hd1
    have hsum1 := sumVals_dictIncr hnd hd1
    obtain ⟨d', hgo, hkeys, hsum⟩ := ih (i + 1) d1 (hkeys1 ▸ hnd)
      (fun u hu => hkeys1 ▸ hinv u hu)
    refine ⟨d', ?_, hkeys.trans hkeys1, ?_⟩
    · unfold goBatch
      rw [hv]
      dsimp only
      rw [hd1]
      exact hgo
    · omega

/-- C4: for every valid Distribution and every `n ≥ 0`, batch-mode
sampling (`generator_`) and lazy-mode sampling (`generator`) of size `n`
both produce the same histogram, whose keys are exactly the stringified
elements, whose counters all start at 0 (`dictOfZeros`), and whose counts
sum to exactly `n`. -/
theorem claim_c4_histogram_totals (es ps : List PyVal) (rv : RV) (n : Nat) (rs : Nat → ℚ)
    (hinit : RV.init es ps = .ok rv) (hlen : es.length = ps.length) :
    ∃ d, generator_ n rv rs = .ok d ∧ generator n rv rs = .ok d ∧
      (∀ k, k ∈ keys d ↔ k ∈ rv.elements.map pyStr) ∧
      sumVals d = n ∧
      (∀ p ∈ dictOfZeros (rv.elements.map pyStr), p.2 = 0) := by
  have hdraw : ∀ r : ℚ, ∃ v, rv.next_num r = .ok v ∧ v ∈ rv.elements := by
    intro r
    obtain ⟨v, hv, -⟩ := RV.next_num_valid r hinit hlen
    exact ⟨v, hv, RV.next_num_mem hv⟩
  obtain ⟨d, hgo, hkeys, hsum⟩ := goBatch_valid rv rs hdraw n 0
    (dictOfZeros (rv.elements.map pyStr))
    (nodup_keys_dictOfZeros _)
    (fun v hv => (mem_keys_dictOfZeros _ _).mpr (List.mem_map_of_mem pyStr hv))
  have hbatch : generator_ n rv rs = .ok d := hgo
  refine ⟨d, hbatch, ?_, ?_, ?_, vals_dictOfZeros _⟩
  · rw [← generator_modes_eq]
    exact hbatch
  · intro k
    rw [hkeys, mem_keys_dictOfZeros]
  · rw [hsum, sumVals_dictOfZeros]
    omega

/-- Witness for C4 at `outcomes = [0, 1]`, `probabilities = [0.5, 0.5]`,
`n = 3`, constant entropy `1/4`. -/
theorem claim_c4_witness :
    ∃ d, generator_ 3 (RV.mk [PyVal.int 0, PyVal.int 1]
          [PyVal.float (1 / 2), PyVal.float (1 / 2)] 2 2) (fun _ => 1 / 4) = .ok d ∧
      generator 3 (RV.mk [PyVal.int 0, PyVal.int 1]
          [PyVal.float (1 / 2), PyVal.float (1 / 2)] 2 2) (fun _ => 1 / 4) = .ok d ∧
      (∀ k, k ∈ keys d ↔ k ∈ (RV.mk [PyVal.int 0, PyVal.int 1]
          [PyVal.float (1 / 2), PyVal.float (1 / 2)] 2 2).elements.map pyStr) ∧
      sumVals d = 3 ∧
      (∀ p ∈ dictOfZeros ((RV.mk [PyVal.int 0, PyVal.int 1]
          [PyVal.float (1 / 2), PyVal.float (1 / 2)] 2 2).elements.map pyStr), p.2 = 0) := by
  have hinit : RV.init [PyVal.int 0, PyVal.int 1]
      [PyVal.float (1 / 2), PyVal.float (1 / 2)]
      = .ok ⟨[PyVal.int 0, PyVal.int 1], [PyVal.float (1 / 2), PyVal.float (1 / 2)], 2, 2⟩ := by
    norm_num [RV.init, setElements, setProbabilities, pySum, toNum, isInstInt, abs_lt]
  exact claim_c4_histogram_totals [PyVal.int 0, PyVal.int 1]
    [PyVal.float (1 / 2), PyVal.float (1 / 2)] _ 3 (fun _ => 1 / 4) hinit rfl

/-- C5: given the same entropy stream and the same instance, batch mode
(`generator_`) and lazy mode (`generator`, consuming `generator_next`)
perform the identical sequence of draws in the identical order and
produce equal results for every `n`. -/
theorem claim_c5_batch_lazy_equivalent (n : Nat) (data : RV) (rs : Nat → ℚ) :
    generator_ n data rs = generator n data rs :=
  generator_modes_eq n data rs

end MetaProbability
